import Mathlib

deriving instance DecidableEq for Except

/-!
Verification development for the StockQuotes.MCP repository.

This file gives a shallow embedding, in Lean 4, of the request-serialization
core of the repository: the Yahoo client call serializer
(`src/yahooFinanceClient.ts`), and the `StockQuotesService` orchestrator
(`src/stockQuotesService.ts`): cache keys, field preparation, quote mapping,
search filtering, and historical-data validation and mapping.  JavaScript
numbers are modelled as rationals, JavaScript machine strings as Lean strings
(with UTF-16 code-unit comparison where JavaScript compares code units), and
asynchronous upstream calls as explicit `Except`-valued oracles passed in as
arguments, together with an explicit list of the upstream requests issued.
-/

namespace StockQuotes

/-! ## JavaScript primitives -/

/-- Truthiness of an optional JavaScript number (`undefined` and `0` are falsy;
NaN does not arise in the rational model). -/
def truthyNum : Option ℚ → Bool
  | none => false
  | some x => x ≠ 0

/-- Uppercase conversion as performed by `String.prototype.toUpperCase`,
restricted to its ASCII mapping (ticker symbols are ASCII). -/
def jsToUpperCase (s : String) : String := String.mk (s.data.map Char.toUpper)

/-- UTF-16 code units of one Unicode scalar value, as JavaScript strings store
them (astral code points become surrogate pairs). -/
def utf16Units (c : Char) : List Nat :=
  if c.val.toNat < 0x10000 then [c.val.toNat]
  else
    let v := c.val.toNat - 0x10000
    [0xD800 + v / 0x400, 0xDC00 + v % 0x400]

/-- The UTF-16 code-unit sequence of a string, the representation on which the
JavaScript relational operators on strings work. -/
def jsStrUnits (s : String) : List Nat := s.data.flatMap utf16Units

/-- Lexicographic strict order on code-unit sequences. -/
def lexLtUnits : List Nat → List Nat → Bool
  | [], [] => false
  | [], _ :: _ => true
  | _ :: _, [] => false
  | a :: as, b :: bs => if a < b then true else if b < a then false else lexLtUnits as bs

/-- The JavaScript `<` operator on strings: lexicographic comparison of UTF-16
code units. -/
def jsStrLt (a b : String) : Bool := lexLtUnits (jsStrUnits a) (jsStrUnits b)

/-- Insertion step of the sort: `x` goes before the first element it does not
strictly exceed. -/
def jsInsert (x : String) : List String → List String
  | [] => [x]
  | y :: ys => if jsStrLt y x then y :: jsInsert x ys else x :: y :: ys

/-- Observable result of `Array.prototype.sort()` on a string array with the
default comparator: the list reordered ascending by UTF-16 code-unit
comparison.  (Equal keys are identical strings, so stability is moot and any
correct sorting algorithm yields this result.) -/
def jsSortStrings : List String → List String
  | [] => []
  | x :: xs => jsInsert x (jsSortStrings xs)

/-- Helper for `jsIncludes`: does `needle` occur in `hay`? -/
def jsIncludesAux (hay needle : List Char) : Bool :=
  if needle.isPrefixOf hay then true
  else
    match hay with
    | [] => needle.isEmpty
    | _ :: t => jsIncludesAux t needle

/-- The JavaScript `String.prototype.includes` substring test. -/
def jsIncludes (s sub : String) : Bool := jsIncludesAux s.data sub.data

/-- JavaScript `Math.round`: round half toward positive infinity. -/
def jsMathRound (x : ℚ) : ℤ := ⌊x + 1/2⌋

/-- The rounding expression `Math.round(x * 100) / 100` used for prices. -/
def round2 (x : ℚ) : ℚ := (jsMathRound (x * 100) : ℚ) / 100

/-! ## Calendar dates (model of the date-fns functions used by the service) -/

/-- A calendar date, the observable content of a date-fns `Date` produced by
`parseISO` on a date-only string (midnight values: comparisons of such dates
coincide with lexicographic comparison of (year, month, day)). -/
structure CalDate where
  year : ℤ
  month : ℤ
  day : ℤ
deriving DecidableEq, Repr

/-- Gregorian leap-year test. -/
def isLeapYear (y : ℤ) : Bool := y % 4 = 0 ∧ (y % 100 ≠ 0 ∨ y % 400 = 0)

/-- Number of days in a month of a given year. -/
def daysInMonth (y m : ℤ) : ℤ :=
  if m = 2 then (if isLeapYear y then 29 else 28)
  else if m = 4 ∨ m = 6 ∨ m = 9 ∨ m = 11 then 30
  else 31

/-- Three-way comparison of calendar dates; for the midnight dates produced by
`parseISO` this equals the sign of the timestamp difference, so it models
date-fns `compareAsc`. -/
def dateCompare (a b : CalDate) : ℤ :=
  if a.year < b.year then -1
  else if b.year < a.year then 1
  else if a.month < b.month then -1
  else if b.month < a.month then 1
  else if a.day < b.day then -1
  else if b.day < a.day then 1
  else 0

/-- date-fns `isAfter` on the dates in play: strict timestamp comparison. -/
def isAfter (a b : CalDate) : Bool := dateCompare a b = 1

/-- Comparison of the (month, day) components only, used by
`differenceInYears` after it normalizes both dates to the leap year 1584. -/
def monthDayCompare (a b : CalDate) : ℤ :=
  if a.month < b.month then -1
  else if b.month < a.month then 1
  else if a.day < b.day then -1
  else if b.day < a.day then 1
  else 0

/-- date-fns `differenceInYears dl dr`: the number of full years from `dr` to
`dl`, computed as the calendar-year difference minus one when the last year is
not complete (the library compares the month/day parts after setting both
years to 1584). -/
def differenceInYears (dl dr : CalDate) : ℤ :=
  let sign := dateCompare dl dr
  let difference : ℤ := |dl.year - dr.year|
  let isLastYearNotFull : Bool := monthDayCompare dl dr = -sign
  sign * (difference - (if isLastYearNotFull then 1 else 0))

/-- date-fns `addDays d 1`: the next calendar day. -/
def addDays1 (d : CalDate) : CalDate :=
  if d.day < daysInMonth d.year d.month then ⟨d.year, d.month, d.day + 1⟩
  else if d.month < 12 then ⟨d.year, d.month + 1, 1⟩
  else ⟨d.year + 1, 1, 1⟩

/-- Numeric value of a decimal digit character. -/
def digitVal (c : Char) : ℤ := (c.toNat : ℤ) - 48

/-- The `/^\d{4}-\d{2}-\d{2}$/` shape test of `HistoricalDataSchema`
(`src/schemas.ts`): exactly ten characters, digits and two dashes. -/
def dateShaped (s : String) : Bool :=
  match s.data with
  | [y1, y2, y3, y4, '-', m1, m2, '-', d1, d2] =>
    y1.isDigit ∧ y2.isDigit ∧ y3.isDigit ∧ y4.isDigit ∧
      m1.isDigit ∧ m2.isDigit ∧ d1.isDigit ∧ d2.isDigit
  | _ => false

/-- Modelled from the date-fns library: `parseISO` restricted to complete
date-only `YYYY-MM-DD` strings, returning `none` where the library returns an
Invalid Date (non-matching shape, month outside 1–12, or day outside the
month).  Other ISO-8601 shapes the library accepts (times, week dates) are
treated as unparseable; this is exact on every input the service can receive,
because the tool schema constrains both date arguments to `\d{4}-\d{2}-\d{2}`. -/
def parseISO (s : String) : Option CalDate :=
  match s.data with
  | [y1, y2, y3, y4, '-', m1, m2, '-', d1, d2] =>
    if y1.isDigit ∧ y2.isDigit ∧ y3.isDigit ∧ y4.isDigit ∧
        m1.isDigit ∧ m2.isDigit ∧ d1.isDigit ∧ d2.isDigit then
      let year := 1000 * digitVal y1 + 100 * digitVal y2 + 10 * digitVal y3 + digitVal y4
      let month := 10 * digitVal m1 + digitVal m2
      let day := 10 * digitVal d1 + digitVal d2
      if 1 ≤ month ∧ month ≤ 12 ∧ 1 ≤ day ∧ day ≤ daysInMonth year month then
        some ⟨year, month, day⟩
      else none
    else none
  | _ => none

/-- Decimal digits of a nonnegative integer, most significant first. -/
def digitsOf (n : ℕ) : List Char :=
  (Nat.toDigits 10 n)

/-- Zero-pad a nonnegative integer to a minimum width, as the date-fns format
tokens `yyyy`, `MM` and `dd` do. -/
def padNum (width : ℕ) (n : ℤ) : String :=
  let ds := digitsOf n.toNat
  String.mk (List.replicate (width - ds.length) '0' ++ ds)

/-- date-fns `format d (yyyy-MM-dd)` on a calendar date. -/
def formatYMD (d : CalDate) : String :=
  padNum 4 d.year ++ "-" ++ padNum 2 d.month ++ "-" ++ padNum 2 d.day

/-- Civil date from a count of days since 1970-01-01 (the standard
era-decomposition algorithm, shifted by 10000 eras so every division has a
nonnegative dividend for all timestamps a JavaScript `Date` can hold). -/
def civilFromDays (z : ℤ) : CalDate :=
  let zs := z + 719468 + 146097 * 10000
  let era := zs / 146097
  let doe := zs - era * 146097
  let yoe := (doe - doe / 1460 + doe / 36524 - doe / 146096) / 365
  let y := yoe + era * 400 - 4000000
  let doy := doe - (365 * yoe + yoe / 4 - yoe / 100)
  let mp := (5 * doy + 2) / 153
  let d := doy - (153 * mp + 2) / 5 + 1
  let m := mp + (if mp < 10 then 3 else -9)
  ⟨if m ≤ 2 then y + 1 else y, m, d⟩

/-- Calendar date of an epoch-milliseconds timestamp (UTC day split). -/
def dateOfEpochMillis (n : ℚ) : CalDate := civilFromDays ⌊n / 86400000⌋

/-- Value of the `date` field of an upstream chart record, whose TypeScript
type is `number | Date` (`YahooHistoricalQuote` in `src/types.ts`). -/
inductive DateVal where
  | num (n : ℚ)
  | obj (d : CalDate)
deriving DecidableEq, Repr

/-- Truthiness of an optional `number | Date` value: absent and the number `0`
are falsy; a `Date` object is always truthy. -/
def truthyDateVal : Option DateVal → Bool
  | none => false
  | some (.num n) => n ≠ 0
  | some (.obj _) => true

/-- The expression `format (new Date (quote.date)) (yyyy-MM-dd)` applied to a
`number | Date` value. -/
def formatDateVal : DateVal → String
  | .num n => formatYMD (dateOfEpochMillis n)
  | .obj d => formatYMD d

/-! ## Data model (`src/types.ts`) -/

/-- A JavaScript property value appearing in a quote response object. -/
inductive JsVal where
  | str (s : String)
  | num (q : ℚ)
  | undefinedVal
deriving DecidableEq, Repr

/-- A JavaScript object as a keyed property list, so that deleting the keys
whose value is `undefined` is observable. -/
abbrev JsObj : Type := List (String × JsVal)

/-- Optional-string field of an upstream record, as a property value. -/
def jsOfStr : Option String → JsVal
  | some s => .str s
  | none => .undefinedVal

/-- Optional-number field of an upstream record, as a property value. -/
def jsOfNum : Option ℚ → JsVal
  | some q => .num q
  | none => .undefinedVal

/-- The fields of a raw upstream quote record that the service reads
(`YahooQuote` in `src/types.ts`); every field is optional upstream. -/
structure YahooQuote where
  symbol : Option String := none
  shortName : Option String := none
  longName : Option String := none
  exchange : Option String := none
  currency : Option String := none
  regularMarketPrice : Option ℚ := none
  regularMarketChange : Option ℚ := none
  regularMarketChangePercent : Option ℚ := none
  regularMarketVolume : Option ℚ := none
  marketCap : Option ℚ := none
  fiftyTwoWeekLow : Option ℚ := none
  fiftyTwoWeekHigh : Option ℚ := none
  averageDailyVolume3Month : Option ℚ := none
  trailingPE : Option ℚ := none
  forwardPE : Option ℚ := none
  dividendYield : Option ℚ := none
  epsTrailingTwelveMonths : Option ℚ := none
  epsForward : Option ℚ := none
  bookValue : Option ℚ := none
  priceToBook : Option ℚ := none
  marketState : Option String := none
  quoteType : Option String := none
deriving DecidableEq, Repr

/-- Input of `getQuote` (`StockQuoteInput`). -/
structure StockQuoteInput where
  ticker : String
  fields : Option (List String) := none
deriving DecidableEq, Repr

/-- Input of `getQuotes` (`StockQuotesInput`). -/
structure StockQuotesInput where
  tickers : List String
  fields : Option (List String) := none
deriving DecidableEq, Repr

/-- The `ticker` field of `StockQuoteSchema` (`src/schemas.ts`):
`z.string().min(1).max(10).toUpperCase()` — the length bounds apply to the
UTF-16 length of the raw string and the only transform is uppercasing; the
schema performs no trim. -/
def parseTickerInput (s : String) : Option String :=
  if 1 ≤ (jsStrUnits s).length ∧ (jsStrUnits s).length ≤ 10 then some (jsToUpperCase s)
  else none

/-- Result shape of the upstream `quote` capability: the library returns a
single record or an array of records (`YahooQuote | YahooQuote[]`); `none` at
the outer `Option` models a falsy (`undefined`/`null`) result. -/
inductive QuotesVal where
  | single (q : YahooQuote)
  | arr (qs : List YahooQuote)
deriving DecidableEq, Repr

/-- One upstream record of a chart response (`YahooHistoricalQuote`). -/
structure YahooHistoricalQuote where
  date : Option DateVal := none
  open_ : Option ℚ := none
  high : Option ℚ := none
  low : Option ℚ := none
  close : Option ℚ := none
  adjClose : Option ℚ := none
  volume : Option ℚ := none
deriving DecidableEq, Repr

/-- An upstream chart response (`YahooChartResponse`); only the `quotes` field
is read by the service. -/
structure YahooChartResponse where
  quotes : Option (List YahooHistoricalQuote) := none
deriving DecidableEq, Repr

/-- One mapped historical point (`HistoricalData` in `src/types.ts`). -/
structure HistoricalData where
  date : String
  close : ℚ
  high : ℚ
  low : ℚ
  volume : ℚ
deriving DecidableEq, Repr

/-! ## Errors (`src/errors.ts`)

The service throws `ValidationError`, `NotFoundError` and `RateLimitError`
(all `AppError` subclasses of `Error`), and lets any other `Error` pass
through; an error is modelled by its class and message, which is all the
service logic inspects (`instanceof` tests and `message.includes`). -/

inductive ServiceError where
  | validation (msg : String)
  | notFound (msg : String)
  | rateLimit (msg : String)
  | jsError (msg : String)
deriving DecidableEq, Repr

/-- The `message` property of a modelled error. -/
def ServiceError.message : ServiceError → String
  | .validation m => m
  | .notFound m => m
  | .rateLimit m => m
  | .jsError m => m

/-- The `error instanceof ValidationError` test. -/
def ServiceError.isValidation : ServiceError → Bool
  | .validation _ => true
  | _ => false

/-- Default message of `RateLimitError` (`src/errors.ts`). -/
def rateLimitMsg : String := "Rate limit exceeded. Please try again later"

/-! ## Response cache (node-cache instance of the service)

The service creates `new NodeCache({ stdTTL: 300, checkperiod: 60 })` and
stores quote responses under string keys.  An entry holds its expiry
timestamp (epoch milliseconds, `now + ttlSeconds * 1000`); `get` returns the
value only while `now < expiry`, which is node-cache's validity test, so an
expired entry behaves as absent.  The `quote_…` keys of `getQuote` and the
`quotes_…` keys of `getQuotes` cannot collide (tickers contain no lowercase
`s` after schema uppercasing), so each operation's entries are modelled as a
cache from keys to that operation's value type. -/

/-- A cache state: keys to (expiry, value). -/
def CacheOf (α : Type) : Type := String → Option (ℤ × α)

/-- The empty cache. -/
def emptyCache {α : Type} : CacheOf α := fun _ => none

/-- node-cache `get` at time `now`: a hit only for an unexpired entry. -/
def cacheGet {α : Type} (c : CacheOf α) (key : String) (now : ℤ) : Option α :=
  match c key with
  | some (exp, v) => if now < exp then some v else none
  | none => none

/-- node-cache `set` at time `now` with a TTL in seconds. -/
def cacheSet {α : Type} (c : CacheOf α) (key : String) (v : α) (now ttlSeconds : ℤ) :
    CacheOf α :=
  fun k => if k = key then some (now + ttlSeconds * 1000, v) else c k

/-! ## StockQuotesService (`src/stockQuotesService.ts`) -/

/-- The `prepareFields` helper: drop empty field names; expand the synthetic
`name` field into `shortName` and `longName` (appending whichever is not
already requested); return `undefined` when nothing remains. -/
def prepareFields : Option (List String) → Option (List String)
  | none => none
  | some fields =>
    let validFields := fields.filter (fun f => decide (0 < f.length))
    let validFields :=
      if validFields.contains "name" then
        let vf := validFields.filter (fun f => decide (f ≠ "name"))
        let vf := if vf.contains "shortName" then vf else vf ++ ["shortName"]
        let vf := if vf.contains "longName" then vf else vf ++ ["longName"]
        vf
      else validFields
    if 0 < validFields.length then some validFields else none

/-- The `fields?.join(\x27,\x27) ?? \x27all\x27` portion of both cache keys:
the client-supplied field list joined in client order, or `all`. -/
def fieldsKeyPart : Option (List String) → String
  | some fs => String.intercalate "," fs
  | none => "all"

/-- The `getQuote` cache key: `quote_{ticker}_{fields-join-or-all}`. -/
def quoteCacheKey (ticker : String) (fields : Option (List String)) : String :=
  "quote_" ++ ticker ++ "_" ++ fieldsKeyPart fields

/-- The `getQuotes` cache key, built after `tickers.sort()` has sorted the
caller's array in place: `quotes_{sorted-tickers-join}_{fields-join-or-all}`. -/
def quotesCacheKey (sortedTickers : List String) (fields : Option (List String)) : String :=
  "quotes_" ++ String.intercalate "," sortedTickers ++ "_" ++ fieldsKeyPart fields

/-- The message of the `NotFoundError` thrown by `getQuote`. -/
def tickerNotFoundMsg (ticker : String) : String :=
  "Stock ticker \x27" ++ ticker ++ "\x27 not found"

/-- The `mapToStockQuoteResponse` method: build the response object with every
mapped attribute (`symbol` defaulting to the requested ticker, `name` from
`shortName ?? longName`), then delete every key whose value is `undefined`. -/
def mapToStockQuoteResponse (quote : YahooQuote) (ticker : String) : JsObj :=
  let response : JsObj := [
    ("symbol", .str (quote.symbol.getD ticker)),
    ("name", jsOfStr (quote.shortName <|> quote.longName)),
    ("exchange", jsOfStr quote.exchange),
    ("currency", jsOfStr quote.currency),
    ("regularMarketPrice", jsOfNum quote.regularMarketPrice),
    ("regularMarketChange", jsOfNum quote.regularMarketChange),
    ("regularMarketChangePercent", jsOfNum quote.regularMarketChangePercent),
    ("regularMarketVolume", jsOfNum quote.regularMarketVolume),
    ("marketCap", jsOfNum quote.marketCap),
    ("fiftyTwoWeekLow", jsOfNum quote.fiftyTwoWeekLow),
    ("fiftyTwoWeekHigh", jsOfNum quote.fiftyTwoWeekHigh),
    ("averageDailyVolume3Month", jsOfNum quote.averageDailyVolume3Month),
    ("trailingPE", jsOfNum quote.trailingPE),
    ("forwardPE", jsOfNum quote.forwardPE),
    ("dividendYield", jsOfNum quote.dividendYield),
    ("epsTrailingTwelveMonths", jsOfNum quote.epsTrailingTwelveMonths),
    ("epsForward", jsOfNum quote.epsForward),
    ("bookValue", jsOfNum quote.bookValue),
    ("priceToBook", jsOfNum quote.priceToBook),
    ("marketState", jsOfStr quote.marketState),
    ("quoteType", jsOfStr quote.quoteType)]
  response.filter (fun kv => decide (kv.2 ≠ JsVal.undefinedVal))

/-- The catch block of `getQuote`: a message containing `No definition` or
`not found` becomes a `NotFoundError` naming the ticker, a message containing
`rate limit` becomes a `RateLimitError`, anything else is rethrown. -/
def getQuoteCatch (ticker : String) (e : ServiceError) : ServiceError :=
  if jsIncludes e.message "No definition" ∨ jsIncludes e.message "not found" then
    .notFound (tickerNotFoundMsg ticker)
  else if jsIncludes e.message "rate limit" then
    .rateLimit rateLimitMsg
  else e

/-- The catch block of `getQuotes`: only the rate-limit signature is
rewrapped; everything else is rethrown unchanged. -/
def getQuotesCatch (e : ServiceError) : ServiceError :=
  if jsIncludes e.message "rate limit" then .rateLimit rateLimitMsg else e

/-- An upstream `quote` call issued for a single ticker. -/
structure QuoteReq where
  symbol : String
  fields : Option (List String)
deriving DecidableEq, Repr

/-- An upstream `quote` call issued for a ticker list. -/
structure QuotesReq where
  symbols : List String
  fields : Option (List String)
deriving DecidableEq, Repr

/-- Outcome of a `getQuote` run: the settled result, the cache afterwards, and
the upstream calls issued. -/
structure GetQuoteOut where
  result : Except ServiceError JsObj
  cache : CacheOf JsObj
  calls : List QuoteReq

/-- The `getQuote` operation at time `now`, with the upstream `quote`
capability passed as an oracle from requests to settled results. -/
def getQuote (input : StockQuoteInput) (now : ℤ) (cache : CacheOf JsObj)
    (upstream : QuoteReq → Except ServiceError (Option QuotesVal)) : GetQuoteOut :=
  let cacheKey := quoteCacheKey input.ticker input.fields
  match cacheGet cache cacheKey now with
  | some r => ⟨.ok r, cache, []⟩
  | none =>
    let validFields := prepareFields input.fields
    let req : QuoteReq := ⟨input.ticker, validFields⟩
    let inner : Except ServiceError JsObj × CacheOf JsObj :=
      match upstream req with
      | .error e => (.error e, cache)
      | .ok none => (.error (.notFound (tickerNotFoundMsg input.ticker)), cache)
      | .ok (some v) =>
        match (match v with | .single q => some q | .arr qs => qs.head?) with
        | none => (.error (.notFound (tickerNotFoundMsg input.ticker)), cache)
        | some q =>
          let response := mapToStockQuoteResponse q input.ticker
          (.ok response, cacheSet cache cacheKey response now 300)
    match inner.1 with
    | .error e => ⟨.error (getQuoteCatch input.ticker e), inner.2, [req]⟩
    | .ok v => ⟨.ok v, inner.2, [req]⟩

/-- Outcome of a `getQuotes` run; `tickersAfter` is the final contents of the
caller-supplied `tickers` array, which `tickers.sort()` mutates in place. -/
structure GetQuotesOut where
  result : Except ServiceError (List JsObj)
  cache : CacheOf (List JsObj)
  calls : List QuotesReq
  tickersAfter : List String

/-- The `getQuotes` operation at time `now`. -/
def getQuotes (input : StockQuotesInput) (now : ℤ) (cache : CacheOf (List JsObj))
    (upstream : QuotesReq → Except ServiceError (Option QuotesVal)) : GetQuotesOut :=
  let sorted := jsSortStrings input.tickers
  let cacheKey := quotesCacheKey sorted input.fields
  match cacheGet cache cacheKey now with
  | some rs => ⟨.ok rs, cache, [], sorted⟩
  | none =>
    let validFields := prepareFields input.fields
    let req : QuotesReq := ⟨sorted, validFields⟩
    let inner : Except ServiceError (List JsObj) × CacheOf (List JsObj) :=
      match upstream req with
      | .error e => (.error e, cache)
      | .ok none =>
        (.error (.notFound ("Stock tickers not found: " ++ String.intercalate ", " sorted)),
          cache)
      | .ok (some v) =>
        let quotes := match v with | .single q => [q] | .arr qs => qs
        let responses := quotes.map (fun q => mapToStockQuoteResponse q (q.symbol.getD "unknown"))
        (.ok responses, cacheSet cache cacheKey responses now 300)
    match inner.1 with
    | .error e => ⟨.error (getQuotesCatch e), inner.2, [req], sorted⟩
    | .ok v => ⟨.ok v, inner.2, [req], sorted⟩

/-- The completeness-and-mapping step of the historical-data loop body: a
record every one of whose `date`, `close`, `high`, `low`, `volume` fields is
truthy yields a point with prices rounded to 2 decimals; any other record
yields nothing. -/
def historicalPointOf (q : YahooHistoricalQuote) : Option HistoricalData :=
  match q.date, q.close, q.high, q.low, q.volume with
  | some d, some c, some h, some l, some v =>
    if truthyDateVal (some d) ∧ c ≠ 0 ∧ h ≠ 0 ∧ l ≠ 0 ∧ v ≠ 0 then
      some ⟨formatDateVal d, round2 c, round2 h, round2 l, v⟩
    else none
  | _, _, _, _, _ => none

/-- The `for (const quote of quotes)` accumulation loop of
`getHistoricalData`, pushing mapped points in iteration order. -/
def chartLoop (quotes : List YahooHistoricalQuote) : List HistoricalData :=
  quotes.foldl
    (fun acc q =>
      match historicalPointOf q with
      | some p => acc ++ [p]
      | none => acc)
    []

/-- An upstream `chart` call: symbol plus the `period1`/`period2` strings. -/
structure ChartReq where
  symbol : String
  period1 : String
  period2 : String
deriving DecidableEq, Repr

/-- Outcome of a `getHistoricalData` run. -/
structure HistOut where
  result : Except ServiceError (List HistoricalData)
  calls : List ChartReq
deriving Repr

/-- The message of the `NotFoundError` thrown when the chart fetch fails. -/
def histNotFoundMsg (ticker : String) : String :=
  "Could not fetch historical data for " ++ ticker ++ ". Please check the ticker and date range."

/-- The `getHistoricalData` operation.  `today` is `startOfToday()`; the
validations run before the `try` block, in source order; inside the `try`,
`period2` is the day after `toDate` (the upstream range end is exclusive) and
any non-`ValidationError` failure is rewrapped as a `NotFoundError` naming the
ticker. -/
def getHistoricalData (today : CalDate) (ticker fromDate toDate : String)
    (upstream : ChartReq → Except ServiceError YahooChartResponse) : HistOut :=
  match parseISO fromDate with
  | none =>
    ⟨.error (.validation ("Invalid fromDate: " ++ fromDate ++ ". Use YYYY-MM-DD format.")), []⟩
  | some fromDateObj =>
  match parseISO toDate with
  | none =>
    ⟨.error (.validation ("Invalid toDate: " ++ toDate ++ ". Use YYYY-MM-DD format.")), []⟩
  | some toDateObj =>
  if isAfter fromDateObj today then
    ⟨.error (.validation "fromDate cannot be in the future."), []⟩
  else if isAfter fromDateObj toDateObj then
    ⟨.error (.validation "fromDate must be before or equal to toDate."), []⟩
  else if 5 < differenceInYears toDateObj fromDateObj then
    ⟨.error (.validation "Date range cannot exceed 5 years."), []⟩
  else
    let period2 := formatYMD (addDays1 toDateObj)
    let req : ChartReq := ⟨ticker, fromDate, period2⟩
    match upstream req with
    | .error e =>
      if e.isValidation then ⟨.error e, [req]⟩
      else ⟨.error (.notFound (histNotFoundMsg ticker)), [req]⟩
    | .ok chart => ⟨.ok (chartLoop (chart.quotes.getD [])), [req]⟩

/-! ## Call serializer (`YahooFinanceClient.enqueue`, `src/yahooFinanceClient.ts`)

`enqueue` synchronously snapshots the static `queue` promise as `previous`,
replaces `queue` with a fresh promise, then runs
`try { await previous; return await task() } finally { resolveNext() }`.
Enqueues are numbered in the order their synchronous prologue runs, so task
`n` awaits tail promise `n` (tail `0` is the initial `Promise.resolve()`) and
its `finally` settles tail promise `n + 1`.  A task is modelled by its settled
outcome; the cooperative scheduler is modelled by the `Exec` relation, which
may run any enqueued task whose awaited tail promise has settled. -/

/-- The body `try { await previous; return await task() } finally
{ resolveNext() }`, as a function of the previous tail's outcome and the
task's own outcome: first component the value the caller's promise settles
with, second the outcome of the new tail promise (which the `finally` clause
resolves on both paths, and which is never rejected). -/
def enqueueBody {ε α : Type} (previous : Except ε Unit) (task : Except ε α) :
    Except ε α × Except ε Unit :=
  match previous with
  | .error e => (.error e, .ok ())
  | .ok () => (task, .ok ())

/-- Outcome of tail promise `n` of the chain over the given task outcomes. -/
def tailOutcome {ε α : Type} (tasks : List (Except ε α)) : ℕ → Except ε Unit
  | 0 => .ok ()
  | n + 1 =>
    match tasks[n]? with
    | some t => (enqueueBody (tailOutcome tasks n) t).2
    | none => .ok ()

/-- What the caller of the `n`-th `enqueue` receives: the first component of
its body, run against tail promise `n`. -/
def callerOutcome {ε α : Type} (tasks : List (Except ε α)) (n : ℕ) : Option (Except ε α) :=
  match tasks[n]? with
  | some t => some (enqueueBody (tailOutcome tasks n) t).1
  | none => none

/-- Scheduler guard: task `n` may start once the tail promise it awaits has
settled — immediately for task `0`, and at task `n - 1`'s `finally` for
`n > 0` (`done` lists the tasks that have finished). -/
def canRun (done : List ℕ) (n : ℕ) : Prop := n = 0 ∨ n - 1 ∈ done

/-- Admissible task execution orders of a chain of `N` enqueued tasks: any
not-yet-run task whose awaited tail promise has settled may run next. -/
inductive Exec (N : ℕ) : List ℕ → Prop where
  | nil : Exec N []
  | step (t : List ℕ) (n : ℕ) : Exec N t → n < N → n ∉ t → canRun t n → Exec N (t ++ [n])

/-- Three complete daily records (the round-trip fixture of the repository's
test suite for 2023-01-01 .. 2023-01-03). -/
def sampleChartQuotes : List YahooHistoricalQuote :=
  [{ date := some (.obj ⟨2023, 1, 1⟩), close := some 100, high := some 105,
     low := some 95, volume := some 1000000 },
   { date := some (.obj ⟨2023, 1, 2⟩), close := some 101, high := some 106,
     low := some 96, volume := some 1200000 },
   { date := some (.obj ⟨2023, 1, 3⟩), close := some 102, high := some 107,
     low := some 97, volume := some 1100000 }]

/-! ## Helper lemmas -/

theorem lookup_filter_cons_of_ne {p : String × JsVal → Bool} (a : String × JsVal)
    (l : JsObj) (k : String) (h : (k == a.1) = false) :
    ((a :: l).filter p).lookup k = (l.filter p).lookup k := by
  by_cases hp : p a <;> simp [List.filter_cons, hp, List.lookup, h]

theorem lookup_filter_cons_of_eq {p : String × JsVal → Bool} (a : String × JsVal)
    (l : JsObj) (k : String) (hk : (k == a.1) = true) (hp : p a = true) :
    ((a :: l).filter p).lookup k = some a.2 := by
  simp [List.filter_cons, hp, List.lookup, hk]

theorem lookup_filter_undef_none (l : JsObj) (k : String)
    (h : ∀ kv ∈ l, kv.1 = k → kv.2 = JsVal.undefinedVal) :
    (l.filter (fun kv => decide (kv.2 ≠ JsVal.undefinedVal))).lookup k = none := by
  induction l with
  | nil => rfl
  | cons a l ih =>
    have htail : ∀ kv ∈ l, kv.1 = k → kv.2 = JsVal.undefinedVal :=
      fun kv hkv => h kv (List.mem_cons_of_mem a hkv)
    by_cases hp : a.2 = JsVal.undefinedVal
    · have hfalse : decide (a.2 ≠ JsVal.undefinedVal) = false := by simp [hp]
      rw [List.filter_cons, hfalse]
      simp only [Bool.false_eq_true, if_false]
      exact ih htail
    · have hk : (k == a.1) = false :=
        beq_eq_false_iff_ne.mpr fun he => hp (h a (List.mem_cons_self a l) he.symm)
      have htrue : decide (a.2 ≠ JsVal.undefinedVal) = true := by simp [hp]
      rw [List.filter_cons, htrue, if_pos rfl]
      obtain ⟨ka, va⟩ := a
      simp only [List.lookup, hk]
      exact ih htail

/-! ## C10: truthiness-based completeness check in the historical loop -/

/-- C10.  In `getHistoricalData`, a daily record whose `close`, `high`, `low`
or `volume` field is present but equal to 0 (or whose `date` is a falsy
value, such as the number 0) is dropped from the result exactly as if the
field were missing, because the completeness check `quote.date && quote.close
&& quote.high && quote.low && quote.volume` tests truthiness rather than
presence. -/
theorem historical_zero_fields_dropped_like_missing (q : YahooHistoricalQuote) :
    historicalPointOf { q with close := some 0 } = none
    ∧ historicalPointOf { q with close := some 0 }
        = historicalPointOf { q with close := none }
    ∧ historicalPointOf { q with high := some 0 } = none
    ∧ historicalPointOf { q with high := some 0 }
        = historicalPointOf { q with high := none }
    ∧ historicalPointOf { q with low := some 0 } = none
    ∧ historicalPointOf { q with low := some 0 }
        = historicalPointOf { q with low := none }
    ∧ historicalPointOf { q with volume := some 0 } = none
    ∧ historicalPointOf { q with volume := some 0 }
        = historicalPointOf { q with volume := none }
    ∧ historicalPointOf { q with date := some (.num 0) } = none
    ∧ historicalPointOf { q with date := some (.num 0) }
        = historicalPointOf { q with date := none } := by
  obtain ⟨d, o, h, l, c, a, v⟩ := q
  cases d <;> cases h <;> cases l <;> cases c <;> cases v <;>
    simp [historicalPointOf, truthyDateVal]

/-! ## C6: quote response mapping omits absent attributes -/

/-- C6.  For every upstream quote record, the response built by
`mapToStockQuoteResponse` contains no key whose upstream value was undefined
(absent attributes are omitted, never emitted as null/undefined), the
`symbol` key is always present and defaults to the requested ticker when the
upstream record omits it, and `name` resolves from `shortName` falling back
to `longName` (and is omitted when both are absent). -/
theorem quote_response_omits_undefined (quote : YahooQuote) (ticker : String) :
    (∀ kv ∈ mapToStockQuoteResponse quote ticker, kv.2 ≠ JsVal.undefinedVal)
    ∧ (mapToStockQuoteResponse quote ticker).lookup "symbol"
        = some (.str (quote.symbol.getD ticker))
    ∧ (quote.symbol = none →
        (mapToStockQuoteResponse quote ticker).lookup "symbol" = some (.str ticker))
    ∧ (mapToStockQuoteResponse quote ticker).lookup "name"
        = Option.map JsVal.str (quote.shortName <|> quote.longName) := by
  have hsym : (mapToStockQuoteResponse quote ticker).lookup "symbol"
      = some (.str (quote.symbol.getD ticker)) := by
    simp only [mapToStockQuoteResponse]
    exact lookup_filter_cons_of_eq _ _ _ rfl rfl
  refine ⟨?_, hsym, ?_, ?_⟩
  · intro kv hkv
    simpa using (List.mem_filter.mp hkv).2
  · intro hs
    rw [hsym, hs]
    rfl
  · simp only [mapToStockQuoteResponse]
    cases hn : quote.shortName <|> quote.longName with
    | some s =>
      rw [lookup_filter_cons_of_ne ("symbol", JsVal.str (quote.symbol.getD ticker)) _ "name" rfl]
      exact lookup_filter_cons_of_eq ("name", jsOfStr (some s)) _ "name" rfl rfl
    | none =>
      apply lookup_filter_undef_none
      intro kv hkv hk
      simp only [List.mem_cons, List.not_mem_nil, or_false] at hkv
      rcases hkv with rfl | rfl | rfl | rfl | rfl | rfl | rfl | rfl | rfl | rfl | rfl |
        rfl | rfl | rfl | rfl | rfl | rfl | rfl | rfl | rfl | rfl
      all_goals first
        | rfl
        | simp at hk

/-- C6 witness: a record lacking `symbol` gets the requested ticker as
`symbol`, and a concrete emitted key has a non-undefined value. -/
theorem quote_response_omits_undefined_witness :
    (mapToStockQuoteResponse { shortName := some "Test Inc." } "X").lookup "symbol"
      = some (.str "X")
    ∧ (("symbol", JsVal.str "X") : String × JsVal).2 ≠ JsVal.undefinedVal := by
  have h := quote_response_omits_undefined { shortName := some "Test Inc." } "X"
  exact ⟨h.2.2.1 rfl, h.1 ("symbol", .str "X") (by decide)⟩

/-! ## C7: historical mapping rounds prices, drops incomplete days, keeps order -/

theorem chartLoop_eq_filterMap (quotes : List YahooHistoricalQuote) :
    chartLoop quotes = quotes.filterMap historicalPointOf := by
  have key : ∀ (l : List YahooHistoricalQuote) (acc : List HistoricalData),
      l.foldl
        (fun acc q =>
          match historicalPointOf q with
          | some p => acc ++ [p]
          | none => acc)
        acc
      = acc ++ l.filterMap historicalPointOf := by
    intro l
    induction l with
    | nil => intro acc; simp
    | cons q l ih =>
      intro acc
      cases hq : historicalPointOf q <;> simp [List.filterMap_cons, hq, ih]
  simpa using key quotes []

/-- C7.  For every upstream chart response, `getHistoricalData` maps each
complete daily record to a `HistoricalData` point with close/high/low rounded
to 2 decimal places, drops entirely any day whose record is missing any of
close/high/low/volume (no incomplete records are emitted), and returns the
points in the upstream-returned order (an order-preserving `filterMap` of the
upstream list) without re-sorting. -/
theorem historical_mapping_rounds_drops_keeps_order
    (today : CalDate) (ticker fromDate toDate : String)
    (upstream : ChartReq → Except ServiceError YahooChartResponse)
    (f t : CalDate) (quotes : List YahooHistoricalQuote)
    (hf : parseISO fromDate = some f) (ht : parseISO toDate = some t)
    (hfut : isAfter f today = false) (hinv : isAfter f t = false)
    (hlen : ¬ 5 < differenceInYears t f)
    (hup : upstream ⟨ticker, fromDate, formatYMD (addDays1 t)⟩ = .ok ⟨some quotes⟩) :
    (getHistoricalData today ticker fromDate toDate upstream).result
      = .ok (quotes.filterMap historicalPointOf)
    ∧ (∀ q ∈ quotes,
        (q.close = none ∨ q.high = none ∨ q.low = none ∨ q.volume = none) →
        historicalPointOf q = none)
    ∧ (∀ q p, historicalPointOf q = some p →
        ∃ d c h l v, q.date = some d ∧ q.close = some c ∧ q.high = some h
          ∧ q.low = some l ∧ q.volume = some v
          ∧ p = ⟨formatDateVal d, round2 c, round2 h, round2 l, v⟩) := by
  refine ⟨?_, ?_, ?_⟩
  · unfold getHistoricalData
    simp only [hf, ht]
    rw [if_neg (by simp [hfut]), if_neg (by simp [hinv]), if_neg hlen]
    simp only [hup]
    simpa using chartLoop_eq_filterMap quotes
  · intro q _ hmiss
    obtain ⟨d, o, hi, lo, c, a, v⟩ := q
    cases d <;> cases c <;> cases hi <;> cases lo <;> cases v <;>
      simp_all [historicalPointOf]
  · intro q p hqp
    obtain ⟨d, o, hi, lo, c, a, v⟩ := q
    cases d <;> cases c <;> cases hi <;> cases lo <;> cases v <;>
      simp only [historicalPointOf] at hqp <;>
      try exact Option.noConfusion hqp
    split at hqp
    · exact ⟨_, _, _, _, _, rfl, rfl, rfl, rfl, rfl, (Option.some.inj hqp).symm⟩
    · exact Option.noConfusion hqp

/-- C7 witness: the three-day round-trip fixture maps to the in-order
`filterMap` of the upstream records. -/
theorem historical_mapping_witness :
    (getHistoricalData ⟨2026, 10, 11⟩ "AAPL" "2023-01-01" "2023-01-03"
        (fun _ => .ok ⟨some sampleChartQuotes⟩)).result
      = .ok (sampleChartQuotes.filterMap historicalPointOf) :=
  (historical_mapping_rounds_drops_keeps_order ⟨2026, 10, 11⟩ "AAPL" "2023-01-01"
    "2023-01-03" (fun _ => .ok ⟨some sampleChartQuotes⟩) ⟨2023, 1, 1⟩ ⟨2023, 1, 3⟩
    sampleChartQuotes (by decide) (by decide) (by decide) (by decide) (by decide) rfl).1

/-! ## C2: the 5-year range limit -/

/-- C2 counterexample.  The range 2020-01-01 .. 2025-01-02 spans 5 years plus
one day (2025-01-01 is exactly five years after the start, and the end date is
after it), yet `getHistoricalData` does not reject it: with a stub upstream it
resolves successfully and issues one upstream chart call, because
`differenceInYears` is 5, not more than 5. -/
theorem historical_five_year_span_plus_day_accepted :
    parseISO "2020-01-01" = some ⟨2020, 1, 1⟩
    ∧ parseISO "2025-01-02" = some ⟨2025, 1, 2⟩
    ∧ isAfter ⟨2025, 1, 2⟩ ⟨2025, 1, 1⟩ = true
    ∧ differenceInYears ⟨2025, 1, 2⟩ ⟨2020, 1, 1⟩ = 5
    ∧ (getHistoricalData ⟨2026, 10, 11⟩ "AAPL" "2020-01-01" "2025-01-02"
        (fun _ => .ok ⟨some []⟩)).result = .ok []
    ∧ (getHistoricalData ⟨2026, 10, 11⟩ "AAPL" "2020-01-01" "2025-01-02"
        (fun _ => .ok ⟨some []⟩)).calls = [⟨"AAPL", "2020-01-01", "2025-01-03"⟩] := by
  exact ⟨by decide, by decide, by decide, by decide, by decide, by decide⟩

/-- C2 (amended).  `getHistoricalData` rejects a parseable range with a
Validation error, issuing zero upstream calls, whenever
`differenceInYears toDate fromDate` exceeds 5 — that is, when the range
contains more than 5 full calendar years.  (Spans that exceed 5 years by less
than a full year, such as 5 years and a day, have `differenceInYears = 5` and
are not rejected.) -/
theorem historical_range_rejected_when_full_years_exceed_five
    (today f t : CalDate) (ticker fromDate toDate : String)
    (upstream : ChartReq → Except ServiceError YahooChartResponse)
    (hf : parseISO fromDate = some f) (ht : parseISO toDate = some t)
    (hdiff : 5 < differenceInYears t f) :
    (∃ m, (getHistoricalData today ticker fromDate toDate upstream).result
        = .error (.validation m))
    ∧ (getHistoricalData today ticker fromDate toDate upstream).calls = [] := by
  unfold getHistoricalData
  simp only [hf, ht]
  by_cases h1 : isAfter f today = true
  · rw [if_pos h1]
    exact ⟨⟨_, rfl⟩, rfl⟩
  · rw [if_neg h1]
    by_cases h2 : isAfter f t = true
    · rw [if_pos h2]
      exact ⟨⟨_, rfl⟩, rfl⟩
    · rw [if_neg h2, if_pos hdiff]
      exact ⟨⟨_, rfl⟩, rfl⟩

/-- C2 witness: the six-full-year range of the repository's own test suite is
rejected with a Validation error and no upstream call. -/
theorem historical_range_rejected_witness :
    (∃ m, (getHistoricalData ⟨2026, 10, 11⟩ "AAPL" "2010-01-01" "2016-01-01"
        (fun _ => .ok ⟨some []⟩)).result = .error (.validation m))
    ∧ (getHistoricalData ⟨2026, 10, 11⟩ "AAPL" "2010-01-01" "2016-01-01"
        (fun _ => .ok ⟨some []⟩)).calls = [] :=
  historical_range_rejected_when_full_years_exceed_five ⟨2026, 10, 11⟩ ⟨2010, 1, 1⟩
    ⟨2016, 1, 1⟩ "AAPL" "2010-01-01" "2016-01-01" (fun _ => .ok ⟨some []⟩)
    (by decide) (by decide) (by decide)

/-! ## C3: validation before upstream; error classification -/

/-- C3.  Every invalid `getHistoricalData` input (unparseable `fromDate` or
`toDate`, `fromDate` in the future, `fromDate` after `toDate`, or a range the
length check rejects) produces a Validation error with zero upstream calls;
a Validation failure is never re-wrapped as NotFound (an upstream
`ValidationError` is rethrown unchanged); and every other post-validation
upstream failure is surfaced as a NotFound error whose message names the
ticker. -/
theorem historical_validation_first_and_error_classes
    (today : CalDate) (ticker fromDate toDate : String)
    (upstream : ChartReq → Except ServiceError YahooChartResponse) :
    ((parseISO fromDate = none ∨ parseISO toDate = none
        ∨ (∃ f t, parseISO fromDate = some f ∧ parseISO toDate = some t ∧
            (isAfter f today = true ∨ isAfter f t = true ∨ 5 < differenceInYears t f))) →
      (∃ m, (getHistoricalData today ticker fromDate toDate upstream).result
          = .error (.validation m))
      ∧ (getHistoricalData today ticker fromDate toDate upstream).calls = [])
    ∧ (∀ f t e, parseISO fromDate = some f → parseISO toDate = some t →
        isAfter f today = false → isAfter f t = false → ¬ 5 < differenceInYears t f →
        upstream ⟨ticker, fromDate, formatYMD (addDays1 t)⟩ = .error e →
        e.isValidation = false →
        (getHistoricalData today ticker fromDate toDate upstream).result
          = .error (.notFound (histNotFoundMsg ticker))
        ∧ ∃ pre post, histNotFoundMsg ticker = pre ++ ticker ++ post)
    ∧ (∀ f t m, parseISO fromDate = some f → parseISO toDate = some t →
        isAfter f today = false → isAfter f t = false → ¬ 5 < differenceInYears t f →
        upstream ⟨ticker, fromDate, formatYMD (addDays1 t)⟩ = .error (.validation m) →
        (getHistoricalData today ticker fromDate toDate upstream).result
          = .error (.validation m)) := by
  refine ⟨?_, ?_, ?_⟩
  · intro hbad
    unfold getHistoricalData
    cases hpf : parseISO fromDate with
    | none => exact ⟨⟨_, rfl⟩, rfl⟩
    | some f' =>
      cases hpt : parseISO toDate with
      | none => exact ⟨⟨_, rfl⟩, rfl⟩
      | some t' =>
        simp only []
        by_cases h1 : isAfter f' today = true
        · rw [if_pos h1]
          exact ⟨⟨_, rfl⟩, rfl⟩
        · rw [if_neg h1]
          by_cases h2 : isAfter f' t' = true
          · rw [if_pos h2]
            exact ⟨⟨_, rfl⟩, rfl⟩
          · rw [if_neg h2]
            by_cases h3 : 5 < differenceInYears t' f'
            · rw [if_pos h3]
              exact ⟨⟨_, rfl⟩, rfl⟩
            · exfalso
              rcases hbad with h | h | ⟨f, t, hf, ht, hd⟩
              · rw [hpf] at h; exact Option.noConfusion h
              · rw [hpt] at h; exact Option.noConfusion h
              · rw [hpf] at hf; rw [hpt] at ht
                obtain rfl := Option.some.inj hf
                obtain rfl := Option.some.inj ht
                rcases hd with hd | hd | hd
                · exact h1 hd
                · exact h2 hd
                · exact h3 hd
  · intro f t e hf ht hfut hinv hlen hup hnv
    unfold getHistoricalData
    simp only [hf, ht]
    rw [if_neg (by simp [hfut]), if_neg (by simp [hinv]), if_neg hlen]
    simp only [hup]
    rw [if_neg (by simp [hnv])]
    exact ⟨rfl, "Could not fetch historical data for ",
      ". Please check the ticker and date range.", rfl⟩
  · intro f t m hf ht hfut hinv hlen hup
    unfold getHistoricalData
    simp only [hf, ht]
    rw [if_neg (by simp [hfut]), if_neg (by simp [hinv]), if_neg hlen]
    simp only [hup]
    rfl

/-- C3 witness: an unparseable `fromDate` is rejected as a Validation error
with zero upstream calls. -/
theorem historical_validation_first_witness :
    (∃ m, (getHistoricalData ⟨2026, 10, 11⟩ "AAPL" "not-a-date" "2023-01-01"
        (fun _ => .ok ⟨some []⟩)).result = .error (.validation m))
    ∧ (getHistoricalData ⟨2026, 10, 11⟩ "AAPL" "not-a-date" "2023-01-01"
        (fun _ => .ok ⟨some []⟩)).calls = [] :=
  (historical_validation_first_and_error_classes ⟨2026, 10, 11⟩ "AAPL" "not-a-date"
    "2023-01-01" (fun _ => .ok ⟨some []⟩)).1 (Or.inl (by decide))

/-! ## Sorting lemmas for the in-place `tickers.sort()` -/

theorem jsInsert_perm (x : String) (l : List String) : (jsInsert x l).Perm (x :: l) := by
  induction l with
  | nil => exact List.Perm.refl _
  | cons y ys ih =>
    unfold jsInsert
    by_cases h : jsStrLt y x = true
    · rw [if_pos h]
      exact (ih.cons y).trans (List.Perm.swap x y ys)
    · rw [if_neg h]

theorem jsSortStrings_perm (l : List String) : (jsSortStrings l).Perm l := by
  induction l with
  | nil => exact List.Perm.refl _
  | cons x xs ih => exact (jsInsert_perm x (jsSortStrings xs)).trans (ih.cons x)

theorem lexLtUnits_asymm :
    ∀ a b : List Nat, lexLtUnits a b = true → lexLtUnits b a = false := by
  intro a
  induction a with
  | nil =>
    intro b h
    cases b with
    | nil => simp [lexLtUnits] at h
    | cons y ys => rfl
  | cons x xs ih =>
    intro b h
    cases b with
    | nil => simp [lexLtUnits] at h
    | cons y ys =>
      unfold lexLtUnits at h ⊢
      rcases lt_trichotomy x y with hxy | hxy | hxy
      · rw [if_neg (by omega), if_pos hxy]
      · subst hxy
        rw [if_neg (by omega), if_neg (by omega)] at h ⊢
        exact ih ys h
      · rw [if_pos hxy] at h
        simp at h
        omega

theorem lexLtUnits_le_trans :
    ∀ a b c : List Nat, lexLtUnits a b = false → lexLtUnits b c = false →
      lexLtUnits a c = false := by
  intro a
  induction a with
  | nil =>
    intro b c hab hbc
    cases b with
    | nil => exact hbc
    | cons y ys => simp [lexLtUnits] at hab
  | cons x xs ih =>
    intro b c hab hbc
    cases c with
    | nil => rfl
    | cons z zs =>
      cases b with
      | nil => simp [lexLtUnits] at hbc
      | cons y ys =>
        unfold lexLtUnits at hab hbc ⊢
        by_cases h1 : x < y
        · rw [if_pos h1] at hab
          simp at hab
        · rw [if_neg h1] at hab
          by_cases h2 : y < z
          · rw [if_pos h2] at hbc
            simp at hbc
          · rw [if_neg h2] at hbc
            by_cases h3 : y < x
            · rw [if_neg (by omega), if_pos (by omega)]
            · have hxy : x = y := by omega
              subst hxy
              by_cases h4 : z < x
              · rw [if_neg (by omega), if_pos h4]
              · have hzx : z = x := by omega
                subst hzx
                rw [if_neg (by omega), if_neg (by omega)]
                rw [if_neg (by omega)] at hab
                rw [if_neg (by omega)] at hbc
                exact ih ys zs hab hbc

theorem jsStrLt_asymm (a b : String) (h : jsStrLt a b = true) : jsStrLt b a = false :=
  lexLtUnits_asymm _ _ h

theorem jsStrLt_le_trans (a b c : String) (hab : jsStrLt a b = false)
    (hbc : jsStrLt b c = false) : jsStrLt a c = false :=
  lexLtUnits_le_trans _ _ _ hab hbc

theorem jsInsert_pairwise (x : String) (l : List String)
    (hl : l.Pairwise (fun a b => jsStrLt b a = false)) :
    (jsInsert x l).Pairwise (fun a b => jsStrLt b a = false) := by
  induction l with
  | nil => simp [jsInsert]
  | cons y ys ih =>
    rw [List.pairwise_cons] at hl
    obtain ⟨hy, hys⟩ := hl
    unfold jsInsert
    by_cases h : jsStrLt y x = true
    · rw [if_pos h]
      rw [List.pairwise_cons]
      refine ⟨?_, ih hys⟩
      intro z hz
      rcases List.mem_cons.mp ((jsInsert_perm x ys).mem_iff.mp hz) with rfl | hz'
      · exact jsStrLt_asymm y z h
      · exact hy z hz'
    · rw [if_neg h]
      rw [List.pairwise_cons]
      refine ⟨?_, List.pairwise_cons.mpr ⟨hy, hys⟩⟩
      intro z hz
      rcases List.mem_cons.mp hz with rfl | hz'
      · simpa using h
      · exact jsStrLt_le_trans z y x (hy z hz') (by simpa using h)

theorem jsSortStrings_sorted (l : List String) :
    (jsSortStrings l).Pairwise (fun a b => jsStrLt b a = false) := by
  induction l with
  | nil => simp [jsSortStrings]
  | cons x xs ih => exact jsInsert_pairwise x _ ih

/-! ## C4: the getQuote cache key and field order -/

/-- C4 counterexample.  `getQuote` builds its cache key from the client-order
join of the raw field list, not a sorted one: with the same ticker and the
same set of fields in two different orders the keys differ, and the second
call misses the cache and issues its own upstream call even though it is
within the TTL of the first call's entry (the runs are 100 seconds apart). -/
theorem quote_cache_key_field_order_sensitive :
    quoteCacheKey "AAPL" (some ["B", "A"]) ≠ quoteCacheKey "AAPL" (some ["A", "B"])
    ∧ (getQuote ⟨"AAPL", some ["A", "B"]⟩ 100000
        (getQuote ⟨"AAPL", some ["B", "A"]⟩ 0 emptyCache
          (fun _ => .ok (some (.single { symbol := some "AAPL" })))).cache
        (fun _ => .ok (some (.single { symbol := some "AAPL" })))).calls
      = [⟨"AAPL", some ["A", "B"]⟩] :=
  ⟨by decide, by decide⟩

/-- C4 (amended).  The `getQuote` cache key is the ticker plus the field list
joined in the client-supplied order, so a repeat call with the identical
ticker and identically-ordered field list within the TTL is served from the
first call's cache entry with no upstream call; two different orderings of
the same field set produce different keys (see the counterexample) and each
triggers its own upstream call. -/
theorem quote_cache_same_field_order_hit
    (ticker : String) (fields : Option (List String)) (now1 now2 : ℤ)
    (cache : CacheOf JsObj)
    (upstream : QuoteReq → Except ServiceError (Option QuotesVal)) (q : YahooQuote)
    (hmiss : cacheGet cache (quoteCacheKey ticker fields) now1 = none)
    (hup : upstream ⟨ticker, prepareFields fields⟩ = .ok (some (.single q)))
    (httl : now2 < now1 + 300000) :
    (getQuote ⟨ticker, fields⟩ now1 cache upstream).result
      = .ok (mapToStockQuoteResponse q ticker)
    ∧ (getQuote ⟨ticker, fields⟩ now2
        (getQuote ⟨ticker, fields⟩ now1 cache upstream).cache upstream).result
      = .ok (mapToStockQuoteResponse q ticker)
    ∧ (getQuote ⟨ticker, fields⟩ now2
        (getQuote ⟨ticker, fields⟩ now1 cache upstream).cache upstream).calls = [] := by
  have hrun1 : getQuote ⟨ticker, fields⟩ now1 cache upstream
      = ⟨.ok (mapToStockQuoteResponse q ticker),
          cacheSet cache (quoteCacheKey ticker fields)
            (mapToStockQuoteResponse q ticker) now1 300,
          [⟨ticker, prepareFields fields⟩]⟩ := by
    simp only [getQuote, hmiss, hup]
  have hget : cacheGet
      (cacheSet cache (quoteCacheKey ticker fields)
        (mapToStockQuoteResponse q ticker) now1 300)
      (quoteCacheKey ticker fields) now2 = some (mapToStockQuoteResponse q ticker) := by
    unfold cacheGet cacheSet
    rw [if_pos rfl]
    exact if_pos (by omega)
  have hrun2 : getQuote ⟨ticker, fields⟩ now2
      (cacheSet cache (quoteCacheKey ticker fields)
        (mapToStockQuoteResponse q ticker) now1 300) upstream
      = ⟨.ok (mapToStockQuoteResponse q ticker),
          cacheSet cache (quoteCacheKey ticker fields)
            (mapToStockQuoteResponse q ticker) now1 300, []⟩ := by
    simp only [getQuote, hget]
  rw [hrun1]
  exact ⟨rfl, by rw [hrun2], by rw [hrun2]⟩

/-- C4 witness: a concrete same-order repeat call 100 seconds later is served
from cache with no upstream call. -/
theorem quote_cache_same_field_order_hit_witness :
    (getQuote ⟨"AAPL", some ["A", "B"]⟩ 100000
        (getQuote ⟨"AAPL", some ["A", "B"]⟩ 0 emptyCache
          (fun _ => .ok (some (.single { symbol := some "AAPL" })))).cache
        (fun _ => .ok (some (.single { symbol := some "AAPL" })))).result
      = .ok (mapToStockQuoteResponse { symbol := some "AAPL" } "AAPL")
    ∧ (getQuote ⟨"AAPL", some ["A", "B"]⟩ 100000
        (getQuote ⟨"AAPL", some ["A", "B"]⟩ 0 emptyCache
          (fun _ => .ok (some (.single { symbol := some "AAPL" })))).cache
        (fun _ => .ok (some (.single { symbol := some "AAPL" })))).calls = [] := by
  have h := quote_cache_same_field_order_hit "AAPL" (some ["A", "B"]) 0 100000 emptyCache
    (fun _ => .ok (some (.single { symbol := some "AAPL" }))) { symbol := some "AAPL" }
    (by decide) rfl (by omega)
  exact ⟨by rw [h.2.1], h.2.2⟩

/-! ## C5: empty versus absent upstream result in getQuotes -/

/-- C5 counterexample.  An upstream result that is an empty array of records
does not cause `getQuotes` to reject: the operation resolves successfully
with an empty response list (the `!results` truthiness test is false for an
array), even though the upstream call was made. -/
theorem quotes_empty_array_not_rejected :
    (getQuotes ⟨["A", "B"], none⟩ 0 emptyCache (fun _ => .ok (some (.arr [])))).result
      = .ok []
    ∧ (getQuotes ⟨["A", "B"], none⟩ 0 emptyCache (fun _ => .ok (some (.arr [])))).calls
      = [⟨["A", "B"], none⟩] :=
  ⟨by decide, by decide⟩

/-- C5 (amended).  Only an absent (falsy: `undefined`/`null`) upstream result
makes `getQuotes` reject, with a not-found failure whose message names the
full requested ticker list (in sorted order — a permutation of the request);
an upstream result that is an empty array yields a successful empty response
list. -/
theorem quotes_absent_rejected_empty_array_succeeds
    (tickers : List String) (fields : Option (List String)) (now : ℤ)
    (cache : CacheOf (List JsObj))
    (upstream : QuotesReq → Except ServiceError (Option QuotesVal))
    (hmiss : cacheGet cache (quotesCacheKey (jsSortStrings tickers) fields) now = none)
    (hnr : jsIncludes ("Stock tickers not found: "
        ++ String.intercalate ", " (jsSortStrings tickers)) "rate limit" = false) :
    (upstream ⟨jsSortStrings tickers, prepareFields fields⟩ = .ok none →
      (getQuotes ⟨tickers, fields⟩ now cache upstream).result
        = .error (.notFound ("Stock tickers not found: "
            ++ String.intercalate ", " (jsSortStrings tickers))))
    ∧ (upstream ⟨jsSortStrings tickers, prepareFields fields⟩ = .ok (some (.arr [])) →
      (getQuotes ⟨tickers, fields⟩ now cache upstream).result = .ok [])
    ∧ (jsSortStrings tickers).Perm tickers := by
  refine ⟨?_, ?_, jsSortStrings_perm tickers⟩
  · intro hup
    simp only [getQuotes, hmiss, hup]
    simp only [getQuotesCatch, ServiceError.message, hnr]
    rfl
  · intro hup
    simp only [getQuotes, hmiss, hup]
    rfl

/-- C5 witness: the absent-result case of the repository's own test suite. -/
theorem quotes_absent_rejected_witness :
    (getQuotes ⟨["NONEXISTENT"], none⟩ 0 emptyCache (fun _ => .ok none)).result
      = .error (.notFound ("Stock tickers not found: "
          ++ String.intercalate ", " (jsSortStrings ["NONEXISTENT"]))) :=
  (quotes_absent_rejected_empty_array_succeeds ["NONEXISTENT"] none 0 emptyCache
    (fun _ => .ok none) (by decide) (by decide)).1 rfl

/-! ## C8: ticker normalization -/

/-- C8 counterexample.  The schema uppercases but does not trim: a ticker
with leading whitespace passes validation with its whitespace intact, so two
tickers differing only in surrounding whitespace get different cache keys,
and the upstream call receives the untrimmed ticker. -/
theorem ticker_not_trimmed :
    parseTickerInput " aapl" = some " AAPL"
    ∧ " AAPL" ≠ "AAPL"
    ∧ quoteCacheKey " AAPL" none ≠ quoteCacheKey "AAPL" none
    ∧ (getQuote ⟨" AAPL", none⟩ 0 emptyCache
        (fun _ => .ok (some (.single { symbol := some "AAPL" })))).calls
      = [⟨" AAPL", none⟩] :=
  ⟨by decide, by decide, by decide, by decide⟩

/-- C8 (amended).  The ticker accepted by `StockQuoteSchema` is normalized by
uppercasing only (no whitespace trimming): every accepted ticker equals the
uppercase image of the raw input, so two inputs differing only in letter case
yield the same normalized ticker and hence the same cache key, while inputs
differing in surrounding whitespace do not (see the counterexample). -/
theorem ticker_uppercased_not_trimmed
    (s1 s2 t1 t2 : String) (fields : Option (List String))
    (h1 : parseTickerInput s1 = some t1) (h2 : parseTickerInput s2 = some t2)
    (hcase : jsToUpperCase s1 = jsToUpperCase s2) :
    t1 = jsToUpperCase s1
    ∧ t1 = t2
    ∧ quoteCacheKey t1 fields = quoteCacheKey t2 fields := by
  unfold parseTickerInput at h1 h2
  split at h1
  · split at h2
    · obtain rfl := Option.some.inj h1
      obtain rfl := Option.some.inj h2
      exact ⟨rfl, hcase, by rw [hcase]⟩
    · exact Option.noConfusion h2
  · exact Option.noConfusion h1

/-- C8 witness: two casings of the same ticker produce identical normalized
tickers and identical cache keys. -/
theorem ticker_uppercased_witness :
    ("AAPL" : String) = jsToUpperCase "aapl"
    ∧ ("AAPL" : String) = jsToUpperCase "AaPl"
    ∧ quoteCacheKey "AAPL" none = quoteCacheKey "AAPL" none := by
  have h := ticker_uppercased_not_trimmed "aapl" "AaPl" "AAPL" "AAPL" none
    (by decide) (by decide) (by decide)
  exact ⟨h.1, by decide, h.2.2⟩

/-! ## C9: getQuotes sorts the caller's tickers array in place -/

/-- C9.  `getQuotes` sorts the caller-supplied `tickers` array in place while
building its cache key: after the call (on every path, including a cache hit)
the caller's array holds `jsSortStrings tickers`, which is a permutation of
the original in ascending code-unit-lexicographic order; every upstream quote
call receives that sorted list rather than the caller's original order; and
the sort is a real mutation — an unsorted input such as
`["MSFT", "AAPL"]` is not left unchanged. -/
theorem getQuotes_sorts_tickers_in_place
    (input : StockQuotesInput) (now : ℤ) (cache : CacheOf (List JsObj))
    (upstream : QuotesReq → Except ServiceError (Option QuotesVal)) :
    (getQuotes input now cache upstream).tickersAfter = jsSortStrings input.tickers
    ∧ (jsSortStrings input.tickers).Perm input.tickers
    ∧ (jsSortStrings input.tickers).Pairwise (fun a b => jsStrLt b a = false)
    ∧ (∀ req ∈ (getQuotes input now cache upstream).calls,
        req.symbols = jsSortStrings input.tickers)
    ∧ jsSortStrings ["MSFT", "AAPL"] ≠ ["MSFT", "AAPL"] := by
  refine ⟨?_, jsSortStrings_perm _, jsSortStrings_sorted _, ?_, by decide⟩
  · simp only [getQuotes]
    repeat' split
    all_goals rfl
  · simp only [getQuotes]
    repeat' split
    all_goals simp

/-- C9 witness: a concrete unsorted input comes back sorted, and the single
upstream call receives the sorted list. -/
theorem getQuotes_sorts_tickers_witness :
    (getQuotes ⟨["MSFT", "AAPL"], none⟩ 0 emptyCache
        (fun _ => .ok (some (.arr [])))).tickersAfter
      = jsSortStrings ["MSFT", "AAPL"]
    ∧ (⟨["AAPL", "MSFT"], none⟩ : QuotesReq).symbols = jsSortStrings ["MSFT", "AAPL"] := by
  have h := getQuotes_sorts_tickers_in_place ⟨["MSFT", "AAPL"], none⟩ 0 emptyCache
    (fun _ => .ok (some (.arr [])))
  exact ⟨h.1, h.2.2.2.1 ⟨["AAPL", "MSFT"], none⟩ (by decide)⟩

/-! ## C1: the call serializer -/

theorem enqueueBody_snd {ε α : Type} (previous : Except ε Unit) (task : Except ε α) :
    (enqueueBody previous task).2 = .ok () := by
  cases previous with
  | error e => rfl
  | ok u => cases u; rfl

theorem tailOutcome_ok {ε α : Type} (tasks : List (Except ε α)) :
    ∀ n, tailOutcome tasks n = .ok () := by
  intro n
  induction n with
  | zero => rfl
  | succ n _ =>
    unfold tailOutcome
    cases tasks[n]? with
    | none => rfl
    | some t => exact enqueueBody_snd _ t

theorem exec_trace_is_range {N : ℕ} : ∀ t, Exec N t → t = List.range t.length := by
  intro t h
  induction h with
  | nil => rfl
  | step t n ht hn hnotin hcan ih =>
    have hge : t.length ≤ n := by
      by_contra hlt
      push_neg at hlt
      exact hnotin (ih ▸ List.mem_range.mpr hlt)
    have hn' : n = t.length := by
      rcases hcan with rfl | hmem
      · omega
      · rw [ih] at hmem
        have := List.mem_range.mp hmem
        omega
    rw [hn', ih]
    simp [List.range_succ]

theorem exec_full (N : ℕ) : Exec N (List.range N) := by
  have key : ∀ k, k ≤ N → Exec N (List.range k) := by
    intro k
    induction k with
    | zero => intro _; exact Exec.nil
    | succ k ih =>
      intro hk
      rw [List.range_succ]
      refine Exec.step _ k (ih (by omega)) (by omega) (by simp) ?_
      rcases Nat.eq_zero_or_pos k with rfl | hp
      · exact Or.inl rfl
      · exact Or.inr (List.mem_range.mpr (by omega))
  exact key N le_rfl

/-- C1.  For tasks enqueued on the Yahoo client's serializer: every
scheduler-admissible execution order is exactly the enqueue order (so task
`n + 1` never starts before task `n` has finished, whether it resolved or
rejected); the full enqueue-order execution is admissible (failures do not
abort the queue — every later task still runs, because the chain's tail
promise settles successfully after every task); and each caller's promise
receives exactly its own task's outcome, so a rejection propagates only to
its own caller. -/
theorem serializer_fifo_and_failure_isolation {ε α : Type}
    (tasks : List (Except ε α)) :
    (∀ t, Exec tasks.length t → t = List.range t.length)
    ∧ Exec tasks.length (List.range tasks.length)
    ∧ (∀ n task, tasks[n]? = some task → callerOutcome tasks n = some task)
    ∧ (∀ n, tailOutcome tasks n = Except.ok ()) := by
  refine ⟨fun t h => exec_trace_is_range t h, exec_full _, ?_, tailOutcome_ok tasks⟩
  intro n task h
  unfold callerOutcome
  rw [h, tailOutcome_ok tasks n]
  rfl

/-- C1 witness: with three concrete tasks, the middle one rejecting, the
trace `[0, 1, 2]` is the enqueue order, the rejecting task's caller receives
exactly that rejection, and the following task's caller still receives its
own success. -/
theorem serializer_fifo_witness :
    ([0, 1, 2] : List ℕ) = List.range 3
    ∧ callerOutcome ([.ok 1, .error "boom", .ok 2] : List (Except String ℕ)) 1
      = some (.error "boom")
    ∧ callerOutcome ([.ok 1, .error "boom", .ok 2] : List (Except String ℕ)) 2
      = some (.ok 2) := by
  have hfix := serializer_fifo_and_failure_isolation
    ([.ok 1, .error "boom", .ok 2] : List (Except String ℕ))
  refine ⟨?_, hfix.2.2.1 1 (.error "boom") rfl, hfix.2.2.1 2 (.ok 2) rfl⟩
  have s0 : Exec 3 ([] ++ [0]) := Exec.step [] 0 Exec.nil (by omega) (by simp) (Or.inl rfl)
  have s1 : Exec 3 (([] ++ [0]) ++ [1]) :=
    Exec.step _ 1 s0 (by omega) (by simp) (Or.inr (by simp))
  have s2 : Exec 3 ((([] ++ [0]) ++ [1]) ++ [2]) :=
    Exec.step _ 2 s1 (by omega) (by simp) (Or.inr (by simp))
  simpa using hfix.1 [0, 1, 2] (by simpa using s2)

end StockQuotes
